import Mathlib

/-!
Verification of the GeometricKernels repository core against its
natural-language specification.

The development shallowly embeds the parts of the code the claims are
about:

* `geometric_kernels/kernels/matern_kernel.py` — the kernel factory
  (`default_num` dispatch and `MaternGeometricKernel.__new__`);
* `geometric_kernels/kernels/feature_maps.py` — the row normalization
  of `random_phase_feature_map_noncompact`;
* `geometric_kernels/lab_extras/numpy/sparse_extras.py` — `eigenpairs`
  and `set_value`;
* `geometric_kernels/spaces/circle.py` — `SinCosEigenfunctions`;
* `geometric_kernels/utils/utils.py` — `make_deterministic`.

Python integers are embedded as `Int` (with `Int.emod` / `Int.fdiv`
matching Python `%` / `//` for positive divisors), real-valued tensors
as lists of real numbers, and Python exceptions as `Except`.
-/

namespace GeometricKernels

/-! ## Space taxonomy

`matern_kernel.py` dispatches on the class of the space.  The classes
that appear in the dispatch table are `Mesh`, `Graph` (both refinements
of `DiscreteSpectrumSpace`, carrying `num_vertices`), generic
`DiscreteSpectrumSpace` (e.g. `Circle`), and the refinements of
`NoncompactSymmetricSpace` (`Hyperbolic`,
`SymmetricPositiveDefiniteMatrices`).  Plum dispatch picks the most
specific registered implementation, which the `match` below mirrors. -/

inductive Space where
  | mesh (numVertices : Nat)
  | graph (numVertices : Nat)
  | genericDiscrete
  | hyperbolic (dim : Nat)
  | spd (n : Nat)
  | genericNoncompact
deriving DecidableEq, Repr

/-- `isinstance(space, DiscreteSpectrumSpace)` in the embedding. -/
def Space.isDiscreteSpectrum : Space → Bool
  | .mesh _ => true
  | .graph _ => true
  | .genericDiscrete => true
  | _ => false

/-- `isinstance(space, NoncompactSymmetricSpace)` in the embedding. -/
def Space.isNoncompactSymmetric : Space → Bool
  | .hyperbolic _ => true
  | .spd _ => true
  | .genericNoncompact => true
  | _ => false

/-! ## The kernel factory (`matern_kernel.py`) -/

/-- `MaternGeometricKernel._DEFAULT_NUM_EIGENFUNCTIONS`. -/
def DEFAULT_NUM_EIGENFUNCTIONS : Nat := 1000

/-- `MaternGeometricKernel._DEFAULT_NUM_LEVELS`. -/
def DEFAULT_NUM_LEVELS : Nat := 35

/-- `MaternGeometricKernel._DEFAULT_NUM_RANDOM_PHASES`. -/
def DEFAULT_NUM_RANDOM_PHASES : Nat := 3000

/-- The `default_num` plum-dispatched function of `matern_kernel.py`:
the `Mesh` and `Graph` overloads take the minimum of the default
eigenfunction count and the vertex count, the generic
`DiscreteSpectrumSpace` overload returns the default level count, and
the `NoncompactSymmetricSpace` overload returns the default number of
random phases. -/
def default_num : Space → Nat
  | .mesh v => min DEFAULT_NUM_EIGENFUNCTIONS v
  | .graph v => min DEFAULT_NUM_EIGENFUNCTIONS v
  | .genericDiscrete => DEFAULT_NUM_LEVELS
  | .hyperbolic _ => DEFAULT_NUM_RANDOM_PHASES
  | .spd _ => DEFAULT_NUM_RANDOM_PHASES
  | .genericNoncompact => DEFAULT_NUM_RANDOM_PHASES

/-- Python truthiness of an optional integer: `None` and `0` are falsy,
every other integer is truthy. -/
def pyTruthy : Option Int → Bool
  | none => false
  | some n => n != 0

/-- The Python expression `num or default` for `num : Optional int`:
the left operand when it is truthy, the right operand otherwise. -/
def pyOrInt (num : Option Int) (default : Int) : Int :=
  match num with
  | none => default
  | some n => if n = 0 then default else n

/-- Descriptor of a `MaternKarhunenLoeveKernel(space, num, normalize=normalize)`
construction (the constructor itself lives outside the factory). -/
structure KLKernelDesc where
  space : Space
  num : Int
  normalize : Bool
deriving DecidableEq, Repr

/-- Descriptor of a feature map produced by `default_feature_map`:
for a discrete-spectrum space `deterministic_feature_map_compact(space, kernel)`,
for a noncompact symmetric space a random-phase or rejection-sampling
feature map parameterized by `num`. -/
structure FeatureMapDesc where
  space : Space
  num : Int
deriving DecidableEq, Repr

/-- Descriptor of a `MaternFeatureMapKernel(space, feature_map, key, normalize=normalize)`
construction. -/
structure FMKernelDesc where
  space : Space
  featureMap : FeatureMapDesc
  key : Nat
  normalize : Bool
deriving DecidableEq, Repr

/-- The kernel object returned by the factory. -/
inductive Kernel where
  | karhunenLoeve (k : KLKernelDesc)
  | featureMapKernel (k : FMKernelDesc)
deriving DecidableEq, Repr

/-- The order in which the factory performs tensor-building steps; an
event is recorded exactly when the corresponding constructor call in
`MaternGeometricKernel.__new__` is reached. -/
inductive BuildEvent where
  | builtKernel
  | builtFeatureMap
deriving DecidableEq, Repr

/-- Python exceptions raised by `MaternGeometricKernel.__new__`. -/
inductive PyError where
  | valueError
  | notImplementedError
deriving DecidableEq, Repr

/-- The value returned by `MaternGeometricKernel.__new__`: the kernel
alone, or the kernel together with the feature map when
`return_feature_map=True`. -/
inductive NewResult where
  | kernelOnly (k : Kernel)
  | kernelAndMap (k : Kernel) (fm : FeatureMapDesc)
deriving DecidableEq, Repr

/-- Embedding of `MaternGeometricKernel.__new__`.

`kwargs` is the keyword-argument dictionary, restricted to the `key`
entry the code inspects (`none` = the caller passed no `key`).  The
result couples the ordered list of construction events performed by
the body with the Python outcome, so that "raised before any feature
map or kernel is built" is the statement that an error is returned
together with an empty event list.  The body mirrors the source
statement by statement: the discrete-spectrum branch resolves `num`,
builds the Karhunen-Loeve kernel, then the feature map; the noncompact
branch resolves `num`, checks for `key` (raising `ValueError` when
absent, before building anything), builds the feature map, then the
feature-map kernel; any other space raises `NotImplementedError`. -/
def maternGeometricKernelNew (space : Space) (num : Option Int)
    (normalize : Bool) (return_feature_map : Bool) (kwargsKey : Option Nat) :
    List BuildEvent × Except PyError NewResult :=
  if space.isDiscreteSpectrum then
    let n := pyOrInt num (default_num space)
    let kernel := Kernel.karhunenLoeve ⟨space, n, normalize⟩
    let feature_map : FeatureMapDesc := ⟨space, n⟩
    let events := [BuildEvent.builtKernel, BuildEvent.builtFeatureMap]
    if return_feature_map then
      (events, .ok (.kernelAndMap kernel feature_map))
    else
      (events, .ok (.kernelOnly kernel))
  else if space.isNoncompactSymmetric then
    let n := pyOrInt num (default_num space)
    match kwargsKey with
    | some key =>
      let feature_map : FeatureMapDesc := ⟨space, n⟩
      let kernel := Kernel.featureMapKernel ⟨space, feature_map, key, normalize⟩
      let events := [BuildEvent.builtFeatureMap, BuildEvent.builtKernel]
      if return_feature_map then
        (events, .ok (.kernelAndMap kernel feature_map))
      else
        (events, .ok (.kernelOnly kernel))
    | none => ([], .error PyError.valueError)
  else
    ([], .error PyError.notImplementedError)

/-- The resolved approximation order recorded in the kernel descriptor
of a factory result (for observing how `num` was resolved). -/
def NewResult.kernelNum : NewResult → Int
  | .kernelOnly (.karhunenLoeve k) => k.num
  | .kernelOnly (.featureMapKernel k) => k.featureMap.num
  | .kernelAndMap (.karhunenLoeve k) _ => k.num
  | .kernelAndMap (.featureMapKernel k) _ => k.featureMap.num

/-! ## Circle eigenfunctions (`spaces/circle.py`) -/

/-- `cartesian_to_polar`: `atan2(X[:,1], X[:,0])` for one point, i.e.
the argument of the complex number `x + i y`. -/
noncomputable def cartesian_to_polar (p : ℝ × ℝ) : ℝ :=
  Complex.arg ⟨p.1, p.2⟩

/-- `SinCosEigenfunctions` after a successful `__init__`: the only
stored datum is `_num_eigenfunctions` (`_num_levels` is derived). -/
structure SinCosEigenfunctions where
  num_eigenfunctions : Int
deriving DecidableEq, Repr

/-- `SinCosEigenfunctions.__init__`: asserts `num_eigenfunctions % 2 == 1`
and `num_eigenfunctions >= 1` (Python `%` on a positive divisor is
`Int.emod`); a failed assertion aborts construction (`none`). -/
def mkSinCosEigenfunctions (num : Int) : Option SinCosEigenfunctions :=
  if num.emod 2 = 1 ∧ 1 ≤ num then some ⟨num⟩ else none

/-- `_num_levels = num_eigenfunctions // 2 + 1` (Python `//` is floor
division, `Int.fdiv`). -/
def SinCosEigenfunctions.num_levels (s : SinCosEigenfunctions) : Int :=
  s.num_eigenfunctions.fdiv 2 + 1

/-- The number of levels as a natural number, for iteration
(`range(self.num_levels)`). -/
def SinCosEigenfunctions.numLevelsNat (s : SinCosEigenfunctions) : Nat :=
  s.num_levels.toNat

/-- `num_eigenfunctions_per_level`:
`[1 if level == 0 else 2 for level in range(self.num_levels)]`. -/
def SinCosEigenfunctions.num_eigenfunctions_per_level
    (s : SinCosEigenfunctions) : List Nat :=
  (List.range s.numLevelsNat).map (fun level => if level = 0 then 1 else 2)

/-- The per-level count as a real scalar, as it enters the addition
theorem after the numpy-to-tensor cast. -/
def perLevelCountR (level : Nat) : ℝ :=
  if level = 0 then 1 else 2

/-- `SinCosEigenfunctions.__call__`: for each input point, the level-0
column of ones followed, for each level `l >= 1`, by the columns
`sqrt 2 * cos(l * theta)` and `sqrt 2 * sin(l * theta)`
(`const = 2.0 ** 0.5`); the columns are concatenated along axis 1, so
each row of the `[N, M]` result is the concatenation below. -/
noncomputable def SinCosEigenfunctions.call (s : SinCosEigenfunctions)
    (X : List (ℝ × ℝ)) : List (List ℝ) :=
  X.map fun p =>
    (List.range s.numLevelsNat).flatMap fun level =>
      if level = 0 then [(1 : ℝ)]
      else
        [Real.sqrt 2 * Real.cos ((level : ℝ) * cartesian_to_polar p),
         Real.sqrt 2 * Real.sin ((level : ℝ) * cartesian_to_polar p)]

/-- `SinCosEigenfunctions._addition_theorem`: the `[N, N2, L]` tensor
with entry `[n, n2, l]` equal to
`num_eigenfunctions_per_level[l] * cos(l * (theta[n] - theta2[n2]))`. -/
noncomputable def SinCosEigenfunctions.addition_theorem
    (s : SinCosEigenfunctions) (X X2 : List (ℝ × ℝ)) :
    List (List (List ℝ)) :=
  X.map fun p =>
    X2.map fun p2 =>
      (List.range s.numLevelsNat).map fun l =>
        perLevelCountR l *
          Real.cos ((l : ℝ) * (cartesian_to_polar p - cartesian_to_polar p2))

/-- `SinCosEigenfunctions._addition_theorem_diag`: the `[N, L]` tensor
`ones([N, L]) * num_eigenfunctions_per_level[None, :]`. -/
noncomputable def SinCosEigenfunctions.addition_theorem_diag
    (s : SinCosEigenfunctions) (X : List (ℝ × ℝ)) : List (List ℝ) :=
  X.map fun _ =>
    (List.range s.numLevelsNat).map fun l => (1 : ℝ) * perLevelCountR l

/-! ## Row normalization in `random_phase_feature_map_noncompact`
(`kernels/feature_maps.py`, lines 209-211)

The code computes, for each row `out[n, :]` of the concatenated
real/imaginary feature matrix,
`normalizer = B.sqrt(B.sum(out**2, axis=-1, squeeze=False))` and then
`out = out / normalizer`.  One row is embedded as a list of reals. -/

/-- The denominator the code divides a feature row by: the square root
of the sum of squares of the row.  This is the verbatim computation of
`feature_maps.py` lines 210-211; no flooring operation appears there. -/
noncomputable def rowNormalizer (out : List ℝ) : ℝ :=
  Real.sqrt ((out.map fun x => x ^ 2).sum)

/-- `out = out / normalizer`, rowwise. -/
noncomputable def normalizeRow (out : List ℝ) : List ℝ :=
  out.map fun x => x / rowNormalizer out

/-! ## Sparse backend primitives (`lab_extras/numpy/sparse_extras.py`) -/

/-- A scipy array as the dispatcher sees it: its runtime sparseness tag
together with its (logical) dense entries; `dim` is `shape[0]`. -/
structure PyMatrix where
  isSparse : Bool
  entries : List (List ℚ)
deriving DecidableEq, Repr

/-- `L.shape[0]`. -/
def PyMatrix.dim (L : PyMatrix) : Nat := L.entries.length

/-- `L.toarray()`: the same entries as a dense array. -/
def PyMatrix.toarray (L : PyMatrix) : PyMatrix := ⟨false, L.entries⟩

/-- The matrix handed to the iterative solver `sp.linalg.eigsh` by
`eigenpairs(L, k)`: the code densifies exactly under
`sp.issparse(L) and (k == L.shape[0])` and otherwise passes `L`
through unchanged. -/
def eigenpairsSolverInput (L : PyMatrix) (k : Nat) : PyMatrix :=
  if L.isSparse = true ∧ k = L.dim then L.toarray else L

/-! ## `set_value` as a heap program

`set_value(a, index, value)` runs `a = a.copy(); a[index] = value;
return a`.  To state that the operation is not done in place, arrays
live in an explicit heap of array objects addressed by references; a
numpy `copy` allocates a fresh object and the assignment mutates only
the fresh object. -/

/-- The array heap: the list of live array objects, addressed by
position. -/
structure Heap where
  arrays : List (List ℚ)
deriving DecidableEq, Repr

/-- Dereference an array. -/
def Heap.lookup (h : Heap) (r : Nat) : List ℚ := h.arrays.getD r []

/-- `a.copy()`: allocate a fresh object holding the same elements,
returning the new heap and the fresh reference. -/
def Heap.copy (h : Heap) (r : Nat) : Heap × Nat :=
  (⟨h.arrays ++ [h.lookup r]⟩, h.arrays.length)

/-- `a[index] = value`: in-place update of the object at reference `r`. -/
def Heap.writeAt (h : Heap) (r : Nat) (index : Nat) (value : ℚ) : Heap :=
  ⟨h.arrays.set r ((h.arrays.getD r []).set index value)⟩

/-- `set_value(a, index, value)` of `sparse_extras.py`:
`a = a.copy(); a[index] = value; return a`.  Returns the updated heap
and the reference to the returned array. -/
def set_value (h : Heap) (a : Nat) (index : Nat) (value : ℚ) : Heap × Nat :=
  let copied := h.copy a
  (copied.1.writeAt copied.2 index value, copied.2)

/-! ## `make_deterministic` (`utils/utils.py`) -/

/-- The backend random state, abstracted to its seed content:
`get_random_state` reads it, `restore_random_state` rebuilds a
generator in that exact state. -/
structure RandomState where
  state : Nat
deriving DecidableEq, Repr

/-- `get_random_state(key)`. -/
def get_random_state (key : RandomState) : Nat := key.state

/-- `restore_random_state(key, saved)`. -/
def restore_random_state (_key : RandomState) (saved : Nat) : RandomState :=
  ⟨saved⟩

/-- How `f` accepts its random key, as `inspect.getfullargspec`
reports it: a positional argument at some position, or a keyword-only
argument. -/
inductive KeyArgKind where
  | positional (position : Nat)
  | kwonly
deriving DecidableEq, Repr

/-- A function that may consume a random generator: `keyArg` records
whether (and how) it takes a `key` argument, and `run` consumes the
generator state current at call time, returning a result and the
advanced generator state. -/
structure StochFn (α β : Type) where
  keyArg : Option KeyArgKind
  run : RandomState → α → β × RandomState

/-- `make_deterministic(f, key)`: when `f` has no `key` argument the
function is returned as is; otherwise the wrapper captures
`saved_random_state = get_random_state(key)` once, at wrapping time,
and on every invocation restores that state and calls `f` with the
restored key instead of the ambient generator state. -/
def make_deterministic {α β : Type} (f : StochFn α β) (key : RandomState) :
    StochFn α β :=
  match f.keyArg with
  | none => f
  | some _ =>
    let saved := get_random_state key
    { keyArg := f.keyArg
      run := fun _ambient a => f.run (restore_random_state key saved) a }

/-- Two successive invocations of `g` with the same remaining
arguments, threading the generator state from the first call into the
second (the behavior of a stateful backend generator); returns the two
results. -/
def callTwice {α β : Type} (g : StochFn α β) (s0 : RandomState) (a : α) :
    β × β :=
  let first := g.run s0 a
  let second := g.run first.2 a
  (first.1, second.1)

/-- A concrete stateful stochastic function on naturals for exercising
`make_deterministic`: it returns the current generator state plus the
argument and advances the generator, so repeated raw calls with the
same argument differ. -/
def counterFn : StochFn Nat Nat :=
  { keyArg := some KeyArgKind.kwonly
    run := fun s a => (s.state + a, ⟨s.state + 1⟩) }

/-! ## List helper lemmas -/

/-- `getD` on an append, inside the left list. -/
theorem listGetD_append_lt {α : Type} (xs ys : List α) (d : α) (n : Nat)
    (h : n < xs.length) : (xs ++ ys).getD n d = xs.getD n d := by
  induction xs generalizing n with
  | nil => simp at h
  | cons a t ih =>
    cases n with
    | zero => rfl
    | succ m => simpa using ih m (by simpa using h)

/-- `getD` of a one-element extension at the extension position. -/
theorem listGetD_append_length {α : Type} (xs : List α) (x d : α) :
    (xs ++ [x]).getD xs.length d = x := by
  induction xs with
  | nil => rfl
  | cons a t ih => simp [ih]

/-- `set` of a one-element extension at the extension position. -/
theorem listSet_append_length {α : Type} (xs : List α) (x y : α) :
    (xs ++ [x]).set xs.length y = xs ++ [y] := by
  induction xs with
  | nil => rfl
  | cons a t ih => simp [ih]

/-- `getD` after `set` at the written position. -/
theorem listGetD_set_self {α : Type} (l : List α) (i : Nat) (v d : α)
    (h : i < l.length) : (l.set i v).getD i d = v := by
  induction l generalizing i with
  | nil => simp at h
  | cons a t ih =>
    cases i with
    | zero => rfl
    | succ m => simpa using ih m (by simpa using h)

/-- `getD` after `set` at a different position. -/
theorem listGetD_set_ne {α : Type} (l : List α) (i j : Nat) (v d : α)
    (h : j ≠ i) : (l.set i v).getD j d = l.getD j d := by
  induction l generalizing i j with
  | nil => simp
  | cons a t ih =>
    cases i with
    | zero =>
      cases j with
      | zero => exact absurd rfl h
      | succ m => rfl
    | succ m =>
      cases j with
      | zero => rfl
      | succ p => simpa using ih m p (fun hpm => h (by simp [hpm]))

/-- `getD` through a `map`, inside bounds. -/
theorem listGetD_map_lt {α β : Type} (l : List α) (f : α → β) (n : Nat)
    (d : β) (dd : α) (h : n < l.length) :
    (l.map f).getD n d = f (l.getD n dd) := by
  induction l generalizing n with
  | nil => simp at h
  | cons a t ih =>
    cases n with
    | zero => rfl
    | succ m => simpa using ih m (by simpa using h)

/-- `getD` on `List.range`, inside bounds. -/
theorem listGetD_range {L n : Nat} (d : Nat) (h : n < L) :
    (List.range L).getD n d = n := by
  induction L with
  | zero => simp at h
  | succ m ih =>
    rcases Nat.lt_succ_iff_lt_or_eq.mp h with hlt | rfl
    · rw [List.range_succ, listGetD_append_lt _ _ _ _ (by simpa using hlt)]
      exact ih hlt
    · rw [List.range_succ]
      have hx := listGetD_append_length (List.range n) n d
      rwa [List.length_range] at hx

/-- Sum of the circle's per-level eigenfunction counts over `k + 1`
levels. -/
theorem perLevelCounts_sum (k : Nat) :
    ((List.range (k + 1)).map fun level =>
      if level = 0 then 1 else 2).sum = 2 * k + 1 := by
  induction k with
  | zero => rfl
  | succ n ih =>
    rw [List.range_succ, List.map_append, List.sum_append, ih]
    simp
    omega

/-- A list sum of squares is nonnegative. -/
theorem sumSq_nonneg (out : List ℝ) : 0 ≤ (out.map fun x => x ^ 2).sum := by
  apply List.sum_nonneg
  intro y hy
  simp only [List.mem_map] at hy
  obtain ⟨x, _, rfl⟩ := hy
  positivity

/-- A list sum of squares vanishes exactly on the all-zero list. -/
theorem sumSq_eq_zero_iff (out : List ℝ) :
    (out.map fun x => x ^ 2).sum = 0 ↔ ∀ x ∈ out, x = 0 := by
  induction out with
  | nil => simp
  | cons a t ih =>
    simp only [List.map_cons, List.sum_cons, List.mem_cons]
    constructor
    · intro h
      have h1 : 0 ≤ a ^ 2 := sq_nonneg a
      have h2 : 0 ≤ (t.map fun x => x ^ 2).sum := sumSq_nonneg t
      have ha : a ^ 2 = 0 := by linarith
      have ht : (t.map fun x => x ^ 2).sum = 0 := by linarith
      intro x hx
      rcases hx with rfl | hx
      · exact pow_eq_zero_iff (by norm_num) |>.mp ha
      · exact (ih.mp ht) x hx
    · intro h
      have ha : a = 0 := h a (Or.inl rfl)
      have ht : (t.map fun x => x ^ 2).sum = 0 :=
        ih.mpr fun x hx => h x (Or.inr hx)
      rw [ha, ht]
      ring

/-- Dividing every mapped element by a constant divides the sum. -/
theorem sum_map_div (l : List ℝ) (f : ℝ → ℝ) (c : ℝ) :
    (l.map fun x => f x / c).sum = (l.map f).sum / c := by
  induction l with
  | nil => simp
  | cons a t ih => simp [ih, add_div]

/-! ## Theorems -/

/-- Claim C1: constructing `MaternGeometricKernel` on a noncompact
symmetric space without a `key` in the extra options raises
`ValueError` with an empty construction trace (no feature map and no
kernel was built before the raise); with a `key` present, construction
succeeds and the trace contains both the feature-map and the kernel
build events. -/
theorem claim_C1 (space : Space) (num : Option Int)
    (normalize return_feature_map : Bool)
    (hs : space.isNoncompactSymmetric = true) :
    (maternGeometricKernelNew space num normalize return_feature_map none =
      ([], Except.error PyError.valueError)) ∧
    (∀ key : Nat,
      (maternGeometricKernelNew space num normalize return_feature_map
          (some key)).1 =
        [BuildEvent.builtFeatureMap, BuildEvent.builtKernel] ∧
      ∃ res, (maternGeometricKernelNew space num normalize return_feature_map
          (some key)).2 = Except.ok res) := by
  have hd : space.isDiscreteSpectrum = false := by
    cases space <;> simp_all [Space.isDiscreteSpectrum, Space.isNoncompactSymmetric]
  constructor
  · simp [maternGeometricKernelNew, hd, hs]
  · intro key
    cases hrf : return_feature_map <;>
      simp [maternGeometricKernelNew, hd, hs]

/-- Witness for C1 at the hyperbolic plane: keyless construction
errors with an empty trace, and a keyed construction succeeds. -/
theorem claim_C1_witness :
    maternGeometricKernelNew (Space.hyperbolic 2) none true false none =
      ([], Except.error PyError.valueError) ∧
    (maternGeometricKernelNew (Space.hyperbolic 2) none true false
        (some 0)).1 =
      [BuildEvent.builtFeatureMap, BuildEvent.builtKernel] :=
  ⟨(claim_C1 (Space.hyperbolic 2) none true false rfl).1,
   ((claim_C1 (Space.hyperbolic 2) none true false rfl).2 0).1⟩

/-- Claim C3: with no order parameter given, the factory resolves the
order to `default_num`, which is `min 1000 v` for a mesh or graph with
`v` vertices, `35` for any other discrete-spectrum space, and `3000`
for every noncompact symmetric space. -/
theorem claim_C3 :
    (∀ v, default_num (Space.mesh v) = min 1000 v) ∧
    (∀ v, default_num (Space.graph v) = min 1000 v) ∧
    default_num Space.genericDiscrete = 35 ∧
    (∀ s : Space, s.isNoncompactSymmetric = true → default_num s = 3000) ∧
    (∀ (s : Space) (normalize return_feature_map : Bool) (k : Option Nat) res,
      (maternGeometricKernelNew s none normalize return_feature_map k).2 =
        Except.ok res →
      res.kernelNum = (default_num s : Int)) := by
  refine ⟨fun v => rfl, fun v => rfl, rfl, ?_, ?_⟩
  · intro s hs
    cases s <;> simp_all [Space.isNoncompactSymmetric, default_num,
      DEFAULT_NUM_RANDOM_PHASES]
  · intro s normalize return_feature_map k res h
    cases s <;> cases k <;> cases return_feature_map <;>
      simp_all [maternGeometricKernelNew, Space.isDiscreteSpectrum,
        Space.isNoncompactSymmetric, pyOrInt, NewResult.kernelNum] <;>
      (subst h; rfl)

/-- Witness for C3: concrete default resolutions through the factory. -/
theorem claim_C3_witness :
    default_num (Space.mesh 7) = min 1000 7 ∧
    default_num (Space.hyperbolic 2) = 3000 ∧
    NewResult.kernelNum
        (NewResult.kernelOnly
          (Kernel.karhunenLoeve ⟨Space.genericDiscrete, 35, true⟩)) =
      (default_num Space.genericDiscrete : Int) :=
  ⟨claim_C3.1 7,
   claim_C3.2.2.2.1 (Space.hyperbolic 2) rfl,
   claim_C3.2.2.2.2 Space.genericDiscrete true false (some 0) _ rfl⟩

/-- Claim C10: passing `num = 0` (falsy in Python) to the factory is
silently replaced by the space default, producing exactly the result
of omitting `num`; a nonzero `num` is honored as the order. -/
theorem claim_C10 (space : Space) (normalize return_feature_map : Bool)
    (k : Option Nat) :
    (maternGeometricKernelNew space (some 0) normalize return_feature_map k =
      maternGeometricKernelNew space none normalize return_feature_map k) ∧
    (∀ (n : Int), n ≠ 0 → ∀ res,
      (maternGeometricKernelNew space (some n) normalize return_feature_map
          k).2 = Except.ok res →
      res.kernelNum = n) := by
  constructor
  · simp [maternGeometricKernelNew, pyOrInt]
  · intro n hn res h
    cases space <;> cases k <;> cases return_feature_map <;>
      simp_all [maternGeometricKernelNew, Space.isDiscreteSpectrum,
        Space.isNoncompactSymmetric, pyOrInt, NewResult.kernelNum] <;>
      (subst h; rfl)

/-- Witness for C10: on a 10-vertex graph, `num = 0` resolves like an
omitted `num`, and `num = 3` is honored. -/
theorem claim_C10_witness :
    maternGeometricKernelNew (Space.graph 10) (some 0) true false none =
      maternGeometricKernelNew (Space.graph 10) none true false none ∧
    NewResult.kernelNum
        (NewResult.kernelOnly
          (Kernel.karhunenLoeve ⟨Space.graph 10, 3, true⟩)) = 3 :=
  ⟨(claim_C10 (Space.graph 10) true false none).1,
   (claim_C10 (Space.graph 10) true false none).2 3 (by decide) _ rfl⟩

/-- Claim C4: `eigenpairs(L, k)` densifies a sparse `L` if and only if
`k` equals `L.shape[0]`; a sparse `L` with `k < L.shape[0]` reaches
the iterative solver unchanged, and the logical entries are always
preserved. -/
theorem claim_C4 (L : PyMatrix) (k : Nat) (hL : L.isSparse = true) :
    ((eigenpairsSolverInput L k).isSparse = false ↔ k = L.dim) ∧
    (k < L.dim → eigenpairsSolverInput L k = L) ∧
    (eigenpairsSolverInput L k).entries = L.entries := by
  refine ⟨?_, ?_, ?_⟩
  · constructor
    · intro h
      by_contra hk
      simp [eigenpairsSolverInput, hk, hL] at h
    · intro hk
      simp [eigenpairsSolverInput, hk, hL, PyMatrix.toarray]
  · intro hk
    have : ¬ (k = L.dim) := Nat.ne_of_lt hk
    simp [eigenpairsSolverInput, this]
  · by_cases hk : k = L.dim <;>
      simp [eigenpairsSolverInput, hk, hL, PyMatrix.toarray]

/-- Witness for C4 on a concrete 2-by-2 sparse matrix: `k = 1` leaves
it sparse and untouched, while the iff registers densification exactly
at `k = 2`. -/
theorem claim_C4_witness :
    ((eigenpairsSolverInput ⟨true, [[0, 1], [1, 0]]⟩ 1).isSparse = false ↔
      (1 = PyMatrix.dim ⟨true, [[0, 1], [1, 0]]⟩)) ∧
    eigenpairsSolverInput ⟨true, [[0, 1], [1, 0]]⟩ 1 =
      ⟨true, [[0, 1], [1, 0]]⟩ :=
  ⟨(claim_C4 ⟨true, [[0, 1], [1, 0]]⟩ 1 rfl).1,
   (claim_C4 ⟨true, [[0, 1], [1, 0]]⟩ 1 rfl).2.1 (by decide)⟩

/-- Claim C5: `set_value(a, index, value)` returns a fresh array that
agrees with `a` everywhere except at `index`, where it holds `value`,
and every array that existed before the call — the input `a` in
particular — is left unchanged. -/
theorem claim_C5 (h : Heap) (a index : Nat) (value : ℚ)
    (ha : a < h.arrays.length) (hi : index < (h.lookup a).length) :
    ((set_value h a index value).1.lookup (set_value h a index value).2 =
      (h.lookup a).set index value) ∧
    (((set_value h a index value).1.lookup
        (set_value h a index value).2).getD index 0 = value) ∧
    (∀ j, j ≠ index →
      ((set_value h a index value).1.lookup
          (set_value h a index value).2).getD j 0 =
        (h.lookup a).getD j 0) ∧
    ((set_value h a index value).2 ≠ a) ∧
    (∀ r, r < h.arrays.length →
      (set_value h a index value).1.lookup r = h.lookup r) := by
  have harr : (set_value h a index value).1.arrays =
      h.arrays ++ [(h.lookup a).set index value] := by
    show ((h.arrays ++ [h.lookup a]).set h.arrays.length
        (((h.arrays ++ [h.lookup a]).getD h.arrays.length []).set index value)) =
      h.arrays ++ [(h.lookup a).set index value]
    rw [listGetD_append_length, listSet_append_length]
  have hret : (set_value h a index value).2 = h.arrays.length := rfl
  have hmain : (set_value h a index value).1.lookup
      (set_value h a index value).2 = (h.lookup a).set index value := by
    show ((set_value h a index value).1.arrays).getD
      (set_value h a index value).2 [] = _
    rw [harr, hret, listGetD_append_length]
  refine ⟨hmain, ?_, ?_, ?_, ?_⟩
  · rw [hmain]
    exact listGetD_set_self _ _ _ _ hi
  · intro j hj
    rw [hmain]
    exact listGetD_set_ne _ _ _ _ _ hj
  · rw [hret]
    exact Nat.ne_of_gt ha
  · intro r hr
    show ((set_value h a index value).1.arrays).getD r [] = _
    rw [harr]
    exact listGetD_append_lt _ _ _ _ hr

/-- Witness for C5 on the heap holding the single array `[1, 2, 3]`:
the returned array is `[1, 5, 3]` while the input array still reads
`[1, 2, 3]`. -/
theorem claim_C5_witness :
    (set_value ⟨[[1, 2, 3]]⟩ 0 1 5).1.lookup (set_value ⟨[[1, 2, 3]]⟩ 0 1 5).2 =
      ([1, 5, 3] : List ℚ) ∧
    (set_value ⟨[[1, 2, 3]]⟩ 0 1 5).1.lookup 0 = ([1, 2, 3] : List ℚ) := by
  have h := claim_C5 ⟨[[1, 2, 3]]⟩ 0 1 5 (by decide) (by decide)
  refine ⟨?_, ?_⟩
  · rw [h.1]; decide
  · rw [h.2.2.2.2 0 (by decide)]; decide

/-- Claim C9: when `f` takes a `key` argument, `make_deterministic`
wraps it so that every invocation runs `f` with the random state
captured from `key` at wrapping time (ignoring the ambient generator
state), hence two successive invocations with identical remaining
arguments return identical results; when `f` has no `key` argument it
is returned unchanged. -/
theorem claim_C9 {α β : Type} (f : StochFn α β) (key : RandomState) :
    (f.keyArg = none → make_deterministic f key = f) ∧
    (f.keyArg ≠ none →
      (∀ s a, (make_deterministic f key).run s a =
        f.run (restore_random_state key (get_random_state key)) a) ∧
      (∀ s0 a, (callTwice (make_deterministic f key) s0 a).1 =
        (callTwice (make_deterministic f key) s0 a).2)) := by
  constructor
  · intro hnone
    simp [make_deterministic, hnone]
  · intro hsome
    cases hke : f.keyArg with
    | none => exact absurd hke hsome
    | some k =>
      constructor
      · intro s a
        simp [make_deterministic, hke]
      · intro s0 a
        simp [callTwice, make_deterministic, hke]

/-- Witness for C9: the deterministic wrapper of the stateful
`counterFn` returns the same value on two successive calls. -/
theorem claim_C9_witness :
    (callTwice (make_deterministic counterFn ⟨5⟩) ⟨0⟩ 3).1 =
      (callTwice (make_deterministic counterFn ⟨5⟩) ⟨0⟩ 3).2 :=
  ((claim_C9 counterFn ⟨5⟩).2 (by decide)).2 ⟨0⟩ 3

/-- Claim C6: for the circle eigenfunctions, the `[n, l]` entry of
`addition_theorem_diag(X)` equals the `[n, n, l]` entry of
`addition_theorem(X, X)`, and both equal the number of eigenfunctions
in level `l` (1 for level 0, 2 otherwise). -/
theorem claim_C6 (s : SinCosEigenfunctions) (X : List (ℝ × ℝ)) (n l : Nat)
    (hn : n < X.length) (hl : l < s.numLevelsNat) :
    ((s.addition_theorem_diag X).getD n []).getD l 0 =
      (((s.addition_theorem X X).getD n []).getD n []).getD l 0 ∧
    ((s.addition_theorem_diag X).getD n []).getD l 0 = perLevelCountR l := by
  have hrange : ∀ g : Nat → ℝ,
      ((List.range s.numLevelsNat).map g).getD l 0 = g l := by
    intro g
    rw [listGetD_map_lt _ _ _ _ 0 (by simpa using hl), listGetD_range 0 hl]
  have hdiag : ((s.addition_theorem_diag X).getD n []).getD l 0 =
      perLevelCountR l := by
    rw [SinCosEigenfunctions.addition_theorem_diag,
      listGetD_map_lt _ _ _ _ (0, 0) hn, hrange]
    ring
  have hat : (((s.addition_theorem X X).getD n []).getD n []).getD l 0 =
      perLevelCountR l := by
    rw [SinCosEigenfunctions.addition_theorem,
      listGetD_map_lt _ _ _ _ (0, 0) hn,
      listGetD_map_lt _ _ _ _ (0, 0) hn, hrange]
    rw [sub_self, mul_zero, Real.cos_zero, mul_one]
  exact ⟨hdiag.trans hat.symm, hdiag⟩

/-- Witness for C6 with three eigenfunctions on one concrete point, at
level 1. -/
theorem claim_C6_witness :
    ((SinCosEigenfunctions.addition_theorem_diag ⟨3⟩ [(1, 0)]).getD 0 []).getD
        1 0 =
      (((SinCosEigenfunctions.addition_theorem ⟨3⟩ [(1, 0)]
          [(1, 0)]).getD 0 []).getD 0 []).getD 1 0 ∧
    ((SinCosEigenfunctions.addition_theorem_diag ⟨3⟩ [(1, 0)]).getD 0 []).getD
        1 0 = perLevelCountR 1 :=
  claim_C6 ⟨3⟩ [(1, 0)] 0 1 (by decide) (by decide)

/-- Claim C7: constructing the circle eigenfunction basis with an even
count fails the parity assertion; for every odd `num >= 1` the
construction succeeds, yields `num // 2 + 1` levels, and the per-level
counts sum to `num`. -/
theorem claim_C7 (num : Int) :
    (num.emod 2 = 0 → mkSinCosEigenfunctions num = none) ∧
    (num.emod 2 = 1 → 1 ≤ num →
      ∃ s, mkSinCosEigenfunctions num = some s ∧
        s.num_levels = num.fdiv 2 + 1 ∧
        (s.num_eigenfunctions_per_level.sum : Int) = num) := by
  constructor
  · intro h
    simp [mkSinCosEigenfunctions, h]
  · intro hodd hpos
    refine ⟨⟨num⟩, by simp [mkSinCosEigenfunctions, hodd, hpos], rfl, ?_⟩
    obtain ⟨N, rfl⟩ : ∃ N : Nat, num = (N : Int) :=
      ⟨num.toNat, (Int.toNat_of_nonneg (by linarith)).symm⟩
    have hodd2 : (N : Int) % 2 = 1 := hodd
    have hNmod : N % 2 = 1 := by omega
    have hfdiv : ((N : Int)).fdiv 2 = ((N / 2 : Nat) : Int) :=
      (Int.ofNat_fdiv N 2).symm
    have hlev : SinCosEigenfunctions.numLevelsNat ⟨(N : Int)⟩ = N / 2 + 1 := by
      rw [SinCosEigenfunctions.numLevelsNat, SinCosEigenfunctions.num_levels]
      rw [show SinCosEigenfunctions.num_eigenfunctions ⟨(N : Int)⟩ = (N : Int)
        from rfl, hfdiv]
      omega
    rw [SinCosEigenfunctions.num_eigenfunctions_per_level, hlev,
      perLevelCounts_sum]
    omega

/-- Witness for C7: four eigenfunctions are rejected; five succeed
with three levels whose counts sum to five. -/
theorem claim_C7_witness :
    mkSinCosEigenfunctions 4 = none ∧
    ∃ s, mkSinCosEigenfunctions 5 = some s ∧
      s.num_levels = 3 ∧ (s.num_eigenfunctions_per_level.sum : Int) = 5 := by
  constructor
  · exact (claim_C7 4).1 (by decide)
  · obtain ⟨s, h1, h2, h3⟩ := (claim_C7 5).2 (by decide) (by decide)
    exact ⟨s, h1, by rw [h2]; decide, h3⟩

/-- Claim C8: the circle eigenfunction basis with five eigenfunctions,
evaluated at the points `(1, 0)` and `(0, 1)`, is a `[2, 5]` matrix
whose first column is exactly one at both points. -/
theorem claim_C8 :
    ∃ s, mkSinCosEigenfunctions 5 = some s ∧
      (s.call [(1, 0), (0, 1)]).length = 2 ∧
      (∀ row ∈ s.call [(1, 0), (0, 1)], row.length = 5) ∧
      (∀ row ∈ s.call [(1, 0), (0, 1)], row.getD 0 0 = 1) := by
  have hlev : SinCosEigenfunctions.numLevelsNat ⟨5⟩ = 3 := by decide
  have hr3 : List.range 3 = [0, 1, 2] := rfl
  refine ⟨⟨5⟩, by decide, by simp [SinCosEigenfunctions.call], ?_, ?_⟩
  · intro row hrow
    rw [SinCosEigenfunctions.call, List.mem_map] at hrow
    obtain ⟨p, hp, rfl⟩ := hrow
    rw [hlev, hr3]
    simp
  · intro row hrow
    rw [SinCosEigenfunctions.call, List.mem_map] at hrow
    obtain ⟨p, hp, rfl⟩ := hrow
    rw [hlev, hr3]
    simp

/-- Claim C2 counterexample: the division guard the claim asserts does
not exist — no positive floor bounds the row normalizer from below,
because the all-zero feature row has normalizer exactly zero. -/
theorem claim_C2_counterexample :
    ¬ ∃ floor : ℝ, 0 < floor ∧ ∀ out : List ℝ, floor ≤ rowNormalizer out := by
  rintro ⟨floor, hpos, hall⟩
  have h := hall [0, 0]
  have hz : rowNormalizer [0, 0] = 0 := by
    simp [rowNormalizer]
  rw [hz] at h
  linarith

/-- Claim C2 (amended): the row normalizer is the raw aggregate L2
norm with no floor — it vanishes exactly on all-zero rows (where the
division is by zero), while on any row with a nonzero entry it is
positive and the normalized row has exactly unit squared norm. -/
theorem claim_C2_amended_floorless (out : List ℝ) :
    (rowNormalizer out = 0 ↔ ∀ x ∈ out, x = 0) ∧
    ((∃ x ∈ out, x ≠ 0) →
      0 < rowNormalizer out ∧
      ((normalizeRow out).map fun x => x ^ 2).sum = 1) := by
  have hS : 0 ≤ (out.map fun x => x ^ 2).sum := sumSq_nonneg out
  constructor
  · rw [rowNormalizer, Real.sqrt_eq_zero hS, sumSq_eq_zero_iff]
  · rintro ⟨x, hx, hxne⟩
    have hSpos : 0 < (out.map fun x => x ^ 2).sum := by
      rcases lt_or_eq_of_le hS with h | h
      · exact h
      · exact absurd ((sumSq_eq_zero_iff out).mp h.symm x hx) hxne
    have hnorm : 0 < rowNormalizer out := Real.sqrt_pos.mpr hSpos
    refine ⟨hnorm, ?_⟩
    rw [normalizeRow, List.map_map]
    have hcomp : ((fun x => x ^ 2) ∘ fun x => x / rowNormalizer out) =
        fun x => x ^ 2 / rowNormalizer out ^ 2 := by
      funext y
      simp [div_pow]
    rw [hcomp]
    have hdiv := sum_map_div out (fun x => x ^ 2) (rowNormalizer out ^ 2)
    simp only at hdiv
    rw [hdiv, rowNormalizer, Real.sq_sqrt hS]
    exact div_self (ne_of_gt hSpos)

/-- Witness for the amended C2 on the row `[3, 4]`: the normalizer is
positive and normalization produces a unit row. -/
theorem claim_C2_witness :
    0 < rowNormalizer [(3 : ℝ), 4] ∧
    ((normalizeRow [(3 : ℝ), 4]).map fun x => x ^ 2).sum = 1 :=
  (claim_C2_amended_floorless [3, 4]).2 ⟨3, by norm_num, by norm_num⟩

end GeometricKernels
